import Mathlib

/-!
Verification development for the PST/OST mail exporter
(`email_processor.py`, `file_saver.py`, `pst_processor.py`).

The Python sources are shallowly embedded: Python `bytes` values become
`List Byte` with `Byte := Fin 256`; fallible Python calls (codec decoding,
filesystem writes, archive access) return `Except PyError`; `try/except`
blocks become `match` on those results; object attributes that may be `None`
become `Option` fields.  Machine-dependent or library-internal behaviour that
the claims never inspect (exact `errors='replace'` substitution granularity,
the native byte order assumed by the `utf-16` codec) is modelled by a fixed
reasonable choice and noted at the definition.
-/

namespace OstPst

/-- A raised Python exception; only its occurrence and message matter here. -/
structure PyError where
  msg : String
deriving DecidableEq, Repr

deriving instance DecidableEq for Except

/-- One byte of a Python `bytes` object. -/
abbrev Byte := Fin 256

/-- The `latin-1` / `iso-8859-1` codec: every byte decodes to the code point
of the same value, so this decoder is total. -/
def latin1DecodeList (bs : List Byte) : List Char :=
  bs.map (fun b => Char.ofNat b.val)

/-- Python `bytes.decode('latin-1')` as a `String`. -/
def latin1Decode (bs : List Byte) : String :=
  ⟨latin1DecodeList bs⟩

/-- Python `str.encode('latin-1')`: fails iff some character is above U+00FF. -/
def latin1Encode (s : String) : Option (List Byte) :=
  s.data.mapM (fun c => if h : c.toNat < 256 then some ⟨c.toNat, h⟩ else none)

/-- State of one in-progress multi-byte UTF-8 sequence: accumulated code-point
bits, how many continuation bytes are still expected, and the admissible range
for the next byte.  The range is tightened for the first continuation byte of
`E0`/`ED`/`F0`/`F4` leads so that overlong encodings, surrogates and values
above U+10FFFF are rejected, exactly as CPython's strict `utf-8` codec does. -/
structure Utf8Pending where
  acc : Nat
  need : Nat
  lo : Nat
  hi : Nat
deriving DecidableEq, Repr

/-- Strict UTF-8 decoding of a byte list, one byte per step. -/
def utf8Aux : Option Utf8Pending → List Byte → Option (List Char)
  | none, [] => some []
  | some _, [] => none
  | none, b :: rest =>
    if b.val < 0x80 then (utf8Aux none rest).map (fun cs => Char.ofNat b.val :: cs)
    else if b.val < 0xC2 then none
    else if b.val < 0xE0 then utf8Aux (some ⟨b.val - 0xC0, 1, 0x80, 0xBF⟩) rest
    else if b.val = 0xE0 then utf8Aux (some ⟨0, 2, 0xA0, 0xBF⟩) rest
    else if b.val = 0xED then utf8Aux (some ⟨0xD, 2, 0x80, 0x9F⟩) rest
    else if b.val < 0xF0 then utf8Aux (some ⟨b.val - 0xE0, 2, 0x80, 0xBF⟩) rest
    else if b.val = 0xF0 then utf8Aux (some ⟨0, 3, 0x90, 0xBF⟩) rest
    else if b.val < 0xF4 then utf8Aux (some ⟨b.val - 0xF0, 3, 0x80, 0xBF⟩) rest
    else if b.val = 0xF4 then utf8Aux (some ⟨4, 3, 0x80, 0x8F⟩) rest
    else none
  | some p, b :: rest =>
    if p.lo ≤ b.val ∧ b.val ≤ p.hi then
      if p.need = 1 then
        (utf8Aux none rest).map (fun cs => Char.ofNat (p.acc * 64 + (b.val - 0x80)) :: cs)
      else utf8Aux (some ⟨p.acc * 64 + (b.val - 0x80), p.need - 1, 0x80, 0xBF⟩) rest
    else none

/-- Python `bytes.decode('utf-8')` (strict). -/
def utf8DecodeStr (bs : List Byte) : Option String :=
  (utf8Aux none bs).map (fun cs => ⟨cs⟩)

/-- Decode exactly one scalar value from the front of a byte list, returning
the decoded character and the remaining bytes; `none` on malformed input. -/
def utf8StepOne : List Byte → Option (Char × List Byte)
  | [] => none
  | b1 :: rest =>
    let v1 := b1.val
    if v1 < 0x80 then some (Char.ofNat v1, rest)
    else if v1 < 0xC2 then none
    else if v1 < 0xE0 then
      match rest with
      | b2 :: rest2 =>
        if 0x80 ≤ b2.val ∧ b2.val ≤ 0xBF then
          some (Char.ofNat ((v1 - 0xC0) * 64 + (b2.val - 0x80)), rest2)
        else none
      | [] => none
    else if v1 < 0xF0 then
      match rest with
      | b2 :: b3 :: rest3 =>
        let lo2 := if v1 = 0xE0 then 0xA0 else 0x80
        let hi2 := if v1 = 0xED then 0x9F else 0xBF
        if (lo2 ≤ b2.val ∧ b2.val ≤ hi2) ∧ (0x80 ≤ b3.val ∧ b3.val ≤ 0xBF) then
          some (Char.ofNat ((v1 - 0xE0) * 4096 + (b2.val - 0x80) * 64 + (b3.val - 0x80)), rest3)
        else none
      | _ => none
    else if v1 < 0xF5 then
      match rest with
      | b2 :: b3 :: b4 :: rest4 =>
        let lo2 := if v1 = 0xF0 then 0x90 else 0x80
        let hi2 := if v1 = 0xF4 then 0x8F else 0xBF
        if (lo2 ≤ b2.val ∧ b2.val ≤ hi2) ∧ (0x80 ≤ b3.val ∧ b3.val ≤ 0xBF) ∧
            (0x80 ≤ b4.val ∧ b4.val ≤ 0xBF) then
          some (Char.ofNat ((v1 - 0xF0) * 262144 + (b2.val - 0x80) * 4096 +
            (b3.val - 0x80) * 64 + (b4.val - 0x80)), rest4)
        else none
      | _ => none
    else none

/-- Fuel-driven body of `utf8DecodeReplace`; the fuel starts at the list
length, which the step function never outruns.  On a malformed sequence one
replacement character U+FFFD is emitted and one byte is skipped (CPython's
`errors='replace'` may group several bad bytes under a single U+FFFD; the
difference is invisible to every claim, which only use totality). -/
def utf8ReplaceAux : Nat → List Byte → List Char
  | 0, _ => []
  | _ + 1, [] => []
  | fuel + 1, b :: rest =>
    match utf8StepOne (b :: rest) with
    | some (c, rest') => c :: utf8ReplaceAux fuel rest'
    | none => Char.ofNat 0xFFFD :: utf8ReplaceAux fuel rest

/-- Python `bytes.decode('utf-8', errors='replace')`: total. -/
def utf8DecodeReplace (bs : List Byte) : String :=
  ⟨utf8ReplaceAux bs.length bs⟩

/-- The `windows-1252` (= `cp1252`) byte map: bytes `81 8D 8F 90 9D` are
undefined, the rest of `80`–`9F` map to the standard punctuation block, all
other bytes map to themselves. -/
def cp1252MapByte (v : Nat) : Option Nat :=
  match v with
  | 0x80 => some 0x20AC
  | 0x81 => none
  | 0x82 => some 0x201A
  | 0x83 => some 0x0192
  | 0x84 => some 0x201E
  | 0x85 => some 0x2026
  | 0x86 => some 0x2020
  | 0x87 => some 0x2021
  | 0x88 => some 0x02C6
  | 0x89 => some 0x2030
  | 0x8A => some 0x0160
  | 0x8B => some 0x2039
  | 0x8C => some 0x0152
  | 0x8D => none
  | 0x8E => some 0x017D
  | 0x8F => none
  | 0x90 => none
  | 0x91 => some 0x2018
  | 0x92 => some 0x2019
  | 0x93 => some 0x201C
  | 0x94 => some 0x201D
  | 0x95 => some 0x2022
  | 0x96 => some 0x2013
  | 0x97 => some 0x2014
  | 0x98 => some 0x02DC
  | 0x99 => some 0x2122
  | 0x9A => some 0x0161
  | 0x9B => some 0x203A
  | 0x9C => some 0x0153
  | 0x9D => none
  | 0x9E => some 0x017E
  | 0x9F => some 0x0178
  | _ => some v

/-- Python `bytes.decode('windows-1252')` / `'cp1252'` (strict). -/
def cp1252DecodeList (bs : List Byte) : Option (List Char) :=
  bs.mapM (fun b => (cp1252MapByte b.val).map Char.ofNat)

/-- The `iso-8859-15` byte map: eight positions differ from latin-1, every
byte is defined, so this decoder is total. -/
def iso885915MapByte (v : Nat) : Nat :=
  match v with
  | 0xA4 => 0x20AC
  | 0xA6 => 0x0160
  | 0xA8 => 0x0161
  | 0xB4 => 0x017D
  | 0xB8 => 0x017E
  | 0xBC => 0x0152
  | 0xBD => 0x0153
  | 0xBE => 0x0178
  | _ => v

/-- Python `bytes.decode('iso-8859-15')`. -/
def iso885915DecodeList (bs : List Byte) : List Char :=
  bs.map (fun b => Char.ofNat (iso885915MapByte b.val))

/-- Python `bytes.decode('ascii')` (strict): fails on any byte above 0x7F. -/
def asciiDecodeList (bs : List Byte) : Option (List Char) :=
  bs.mapM (fun b => if b.val < 0x80 then some (Char.ofNat b.val) else none)

/-- Pair up bytes into 16-bit code units; fails on odd length. -/
def utf16Units (bigEndian : Bool) : List Byte → Option (List Nat)
  | [] => some []
  | [_] => none
  | a :: b :: rest =>
    (utf16Units bigEndian rest).map
      (fun us => (if bigEndian then a.val * 256 + b.val else b.val * 256 + a.val) :: us)

/-- Combine UTF-16 code units, pairing surrogates; strict (a lone surrogate
fails, as in CPython). -/
def utf16Combine : List Nat → Option (List Char)
  | [] => some []
  | u :: rest =>
    if u < 0xD800 ∨ 0xE000 ≤ u then
      (utf16Combine rest).map (fun cs => Char.ofNat u :: cs)
    else if u < 0xDC00 then
      match rest with
      | u2 :: rest2 =>
        if 0xDC00 ≤ u2 ∧ u2 < 0xE000 then
          (utf16Combine rest2).map
            (fun cs => Char.ofNat (0x10000 + (u - 0xD800) * 0x400 + (u2 - 0xDC00)) :: cs)
        else none
      | [] => none
    else none

/-- Python `bytes.decode('utf-16-le')` (strict; a BOM is not stripped). -/
def utf16leDecodeList (bs : List Byte) : Option (List Char) :=
  (utf16Units false bs).bind utf16Combine

/-- Python `bytes.decode('utf-16-be')` (strict). -/
def utf16beDecodeList (bs : List Byte) : Option (List Char) :=
  (utf16Units true bs).bind utf16Combine

/-- Python `bytes.decode('utf-16')` (strict): honour a leading BOM, otherwise
use the machine's native order, modelled as little-endian (the x86/ARM hosts
this exporter targets). -/
def utf16NativeDecodeList (bs : List Byte) : Option (List Char) :=
  match bs with
  | b0 :: b1 :: rest =>
    if b0.val = 0xFF ∧ b1.val = 0xFE then utf16leDecodeList rest
    else if b0.val = 0xFE ∧ b1.val = 0xFF then utf16beDecodeList rest
    else utf16leDecodeList (b0 :: b1 :: rest)
  | short => utf16leDecodeList short

/-- The encodings named in `_decode_email_body`'s cascade. -/
inductive PyEncoding where
  | utf8
  | iso8859_1
  | windows1252
  | cp1252
  | iso8859_15
  | utf16
  | utf16le
  | utf16be
  | ascii
deriving DecidableEq, Repr

/-- The `encodings_to_try` list of `_decode_email_body`, in source order. -/
def encodingsToTry : List PyEncoding :=
  [.utf8, .iso8859_1, .windows1252, .cp1252, .iso8859_15, .utf16, .utf16le, .utf16be, .ascii]

/-- Python `bytes.decode(encoding)` for the encodings the cascade uses:
`.ok` with the decoded string, or `.error` with a `UnicodeDecodeError`. -/
def pyDecodeStrict (enc : PyEncoding) (bs : List Byte) : Except PyError String :=
  let r : Option (List Char) :=
    match enc with
    | .utf8 => utf8Aux none bs
    | .iso8859_1 => some (latin1DecodeList bs)
    | .windows1252 => cp1252DecodeList bs
    | .cp1252 => cp1252DecodeList bs
    | .iso8859_15 => some (iso885915DecodeList bs)
    | .utf16 => utf16NativeDecodeList bs
    | .utf16le => utf16leDecodeList bs
    | .utf16be => utf16beDecodeList bs
    | .ascii => asciiDecodeList bs
  match r with
  | some cs => .ok ⟨cs⟩
  | none => .error ⟨"UnicodeDecodeError"⟩

/-- Bool test whether `sub` is a prefix of the second list (Python-style
character comparison). -/
def listStarts : List Char → List Char → Bool
  | [], _ => true
  | _ :: _, [] => false
  | a :: as, b :: bs => a == b && listStarts as bs

/-- Bool test whether `sub` occurs contiguously inside the second list. -/
def listHasSub (sub : List Char) : List Char → Bool
  | [] => sub.isEmpty
  | c :: rest => listStarts sub (c :: rest) || listHasSub sub rest

/-- Python `sub in s` on strings: contiguous substring containment. -/
def pyStrContains (s sub : String) : Bool :=
  listHasSub sub.data s.data

/-- The seven tell-tale mis-decoded sequences of the double-encoding repair
step: `Ã§ Ã£ Ã¡ Ã© Ã­ Ã³ Ãº` (each `Ã` = U+00C3 followed by a second
code point in U+00A1–U+00BA). -/
def tellTales7 : List String :=
  ["Ã§", "Ã£", "Ã¡", "Ã©",
   "Ã­", "Ã³", "Ãº"]

/-- The three tell-tales the cascade's UTF-8 validation actually checks:
`Ã§ Ã£ Ã¡` only. -/
def tellTales3 : List String :=
  ["Ã§", "Ã£", "Ã¡"]

/-- Python `any(char in decoded for char in tales)`. -/
def hasTellTale (tales : List String) (decoded : String) : Bool :=
  tales.any (fun t => pyStrContains decoded t)

/-- The `for encoding in encodings_to_try` loop of `_decode_email_body`:
skip an encoding whose strict decode raises; additionally reject a successful
`utf-8` decode that still contains one of the three checked tell-tales. -/
def decodeCascade (bs : List Byte) : List PyEncoding → Option String
  | [] => none
  | enc :: rest =>
    match pyDecodeStrict enc bs with
    | .error _ => decodeCascade bs rest
    | .ok decoded =>
      if enc = .utf8 && hasTellTale tellTales3 decoded then decodeCascade bs rest
      else some decoded

/-- The double-encoding repair block of `_decode_email_body`: decode as
latin-1; if the result shows one of the seven tell-tales, re-encode as
latin-1 and strictly decode as utf-8; every failure inside the block is
caught (`except: pass`), modelled by returning `none`. -/
def doubleEncodingRepair (bs : List Byte) : Option String :=
  match pyDecodeStrict .iso8859_1 bs with
  | .error _ => none
  | .ok temp =>
    if hasTellTale tellTales7 temp then
      match latin1Encode temp with
      | none => none
      | some fixedBytes =>
        match pyDecodeStrict .utf8 fixedBytes with
        | .ok s => some s
        | .error _ => none
    else none

/-- Model of `EmailProcessor._decode_email_body` on a `bytes` argument.  First the
double-encoding repair heuristic, then the encoding cascade, then the
`errors='replace'` last resort, which is total, inside a `try` whose handler
is therefore unreachable. -/
def decodeEmailBody (bs : List Byte) : Except PyError String :=
  match doubleEncodingRepair bs with
  | some s => .ok s
  | none =>
    match decodeCascade bs encodingsToTry with
    | some s => .ok s
    | none => .ok (utf8DecodeReplace bs)

/-! ## Filesystem-name model (`file_saver.py`) -/

/-- Python `s.startswith('/')`. -/
def strStartsWithSlash (s : String) : Bool :=
  match s.data with
  | [] => false
  | c :: _ => c == '/'

/-- Python `s.endswith('/')`. -/
def strEndsWithSlash (s : String) : Bool :=
  match s.data.getLast? with
  | some c => c == '/'
  | none => false

/-- Model of `os.path.join(a, b)` on POSIX for the two-argument calls the exporter
makes: a second component starting with the separator replaces the first;
an empty or separator-terminated first component is concatenated directly;
otherwise the separator is inserted. -/
def osPathJoin (a b : String) : String :=
  if strStartsWithSlash b then b
  else if a = "" || strEndsWithSlash a then a ++ b
  else a ++ "/" ++ b

/-- The suffixed candidate `f"{base_name}_{counter}.{extension}"` joined to
the folder, as probed by `FileSaver._get_unique_filename`'s loop. -/
def candName (folder base ext : String) (counter : Nat) : String :=
  osPathJoin folder (base ++ "_" ++ Nat.repr counter ++ "." ++ ext)

/-- Length of the longest path in the modelled filesystem; used only to
justify termination of the `while True` probe loop. -/
def maxLen (fs : List String) : Nat :=
  fs.foldr (fun s m => max s.length m) 0

/-- Largest path length bounds every member. -/
theorem length_le_maxLen {fs : List String} {s : String} (h : s ∈ fs) :
    s.length ≤ maxLen fs := by
  induction fs with
  | nil => simp at h
  | cons a rest ih =>
    rcases List.mem_cons.mp h with rfl | hmem
    · simp [maxLen]
    · have := ih hmem
      simp only [maxLen, List.foldr_cons] at *
      omega

/-- The function `Nat.toDigitsCore` produces at least `e + 1` digits for `n ≥ 10 ^ e`
(given enough fuel). -/
theorem toDigitsCore_length_lower (e : Nat) :
    ∀ f n : Nat, 10 ^ e ≤ n → n < f → e + 1 ≤ (Nat.toDigitsCore 10 f n []).length := by
  induction e with
  | zero =>
    intro f n hlow hf
    cases f with
    | zero => omega
    | succ f' =>
      simp only [Nat.toDigitsCore]
      split
      · simp
      · rw [Nat.toDigitsCore_lens_eq]
        simp
  | succ e ih =>
    intro f n hlow hf
    have hn10 : 10 ≤ n := le_trans (Nat.le_self_pow (by omega) 10) hlow
    cases f with
    | zero => omega
    | succ f' =>
      simp only [Nat.toDigitsCore]
      have hdiv : ¬ n / 10 = 0 := by
        have : 1 ≤ n / 10 := (Nat.le_div_iff_mul_le (by norm_num)).mpr (by omega)
        omega
      rw [if_neg hdiv, Nat.toDigitsCore_lens_eq]
      have hlow' : 10 ^ e ≤ n / 10 := by
        apply (Nat.le_div_iff_mul_le (by norm_num)).mpr
        calc 10 ^ e * 10 = 10 ^ (e + 1) := by ring
        _ ≤ n := hlow
      have hlt : n / 10 < f' := by
        have := Nat.div_lt_self (by omega : 0 < n) (by norm_num : 1 < 10)
        omega
      exact Nat.succ_le_succ (ih f' (n / 10) hlow' hlt)

/-- The decimal representation of `n ≥ 10 ^ e` has more than `e` digits. -/
theorem repr_length_lower (n e : Nat) (h : 10 ^ e ≤ n) :
    e + 1 ≤ (Nat.repr n).length := by
  unfold Nat.repr Nat.toDigits
  rw [List.length_asString]
  exact toDigitsCore_length_lower e (n + 1) n h (Nat.lt_succ_self n)

/-- The probe name is at least as long as the embedded counter text. -/
theorem repr_length_le_candName (folder base ext : String) (c : Nat) :
    (Nat.repr c).length ≤ (candName folder base ext c).length := by
  unfold candName osPathJoin
  split_ifs <;> simp [String.length_append] <;> omega

/-- A probe name that is an existing path bounds the counter: once the
counter has more decimal digits than the longest existing path, the probe
cannot collide any more. -/
theorem counter_bound_of_mem {fs : List String} {folder base ext : String} {c : Nat}
    (h : candName folder base ext c ∈ fs) : c < 10 ^ maxLen fs := by
  by_contra hc
  push_neg at hc
  have h1 := repr_length_lower c (maxLen fs) hc
  have h2 := repr_length_le_candName folder base ext c
  have h3 := length_le_maxLen h
  omega

/-- The `while True` loop of `FileSaver._get_unique_filename`: probe
`base_counter.ext`, return it if no file exists at that path, else retry with
the next counter.  The filesystem is the finite list of existing paths, so
the loop terminates. -/
def uniqueLoop (fs : List String) (folder base ext : String) (counter : Nat) : String :=
  if h : candName folder base ext counter ∈ fs then
    uniqueLoop fs folder base ext (counter + 1)
  else candName folder base ext counter
termination_by 10 ^ maxLen fs + 1 - counter
decreasing_by
  have := counter_bound_of_mem h
  omega

/-- Model of `FileSaver._get_unique_filename`: return `folder/base.ext` if free,
otherwise the first free `folder/base_counter.ext` counting from 1. -/
def getUniqueFilename (fs : List String) (folder base ext : String) : String :=
  if osPathJoin folder (base ++ "." ++ ext) ∈ fs then uniqueLoop fs folder base ext 1
  else osPathJoin folder (base ++ "." ++ ext)

/-! ## Message model (the `pypff` attributes the exporter reads) -/

/-- A Python value that may be `str` or `bytes`. -/
inductive PyBody where
  | str (s : String)
  | bytes (bs : List Byte)
deriving DecidableEq, Repr

/-- Python truthiness of an optional string-or-bytes field: `None`, `''` and
`b''` are falsy. -/
def bodyTruthy : Option PyBody → Bool
  | none => false
  | some (.str s) => s != ""
  | some (.bytes bs) => !bs.isEmpty

/-- Python `a or fallback` on an optional string-or-bytes value. -/
def orBody (a : Option PyBody) (fallback : PyBody) : PyBody :=
  match a with
  | some x => if bodyTruthy (some x) then x else fallback
  | none => fallback

/-- The message's raw transport-header blob, modelled by its parse outcome
under `email.message_from_string` (which the exporter immediately applies):
either a structured header list in order of appearance, or a parse failure. -/
inductive HeaderBlob where
  | parses (headers : List (String × String))
  | malformed
deriving DecidableEq, Repr

/-- ASCII lower-casing of one character (header names are ASCII). -/
def lowerChar (c : Char) : Char :=
  if 'A' ≤ c ∧ c ≤ 'Z' then Char.ofNat (c.toNat + 32) else c

/-- ASCII lower-casing of a string, for case-insensitive header-name match. -/
def lowerStr (s : String) : String :=
  ⟨s.data.map lowerChar⟩

/-- Model of `msg.get_all(name, [])` of the stdlib message object: header-name match
is case-insensitive, values keep their order of appearance and stringify to
themselves. -/
def getAllHeaders (hs : List (String × String)) (name : String) : List String :=
  (hs.filter (fun kv => lowerStr kv.1 == lowerStr name)).map (fun kv => kv.2)

/-- The `pypff` message attributes read by the exporter.  `none` models a
`None` (or, for `transport_headers`, also empty hence falsy) attribute; dates
carry their `strftime('%Y-%m-%d')` rendering, since only that rendering is
ever observed. -/
structure PffMessage where
  subject : Option String
  sender_name : Option String
  transport_headers : Option HeaderBlob
  display_to : Option String
  plain_text_body : Option PyBody
  html_body : Option PyBody
  delivery_time : Option String
  creation_time : Option String
deriving DecidableEq, Repr

/-- Python `x or fallback` for an optional string (empty string is falsy). -/
def orString (a : Option String) (fallback : String) : String :=
  match a with
  | some s => if s != "" then s else fallback
  | none => fallback

/-- Python f-string rendering of a possibly-`None` string attribute. -/
def pyStr (a : Option String) : String :=
  match a with
  | some s => s
  | none => "None"

/-- Model of `EmailProcessor._format_delivery_time`: delivery time, else creation
time, else today, bracketed.  `datetime` objects are always truthy and
`strftime` on them is total, so the `except` arm of the source is dead. -/
def formatDeliveryTime (m : PffMessage) (today : String) : String :=
  match m.delivery_time with
  | some d => "[" ++ d ++ "]"
  | none =>
    match m.creation_time with
    | some c => "[" ++ c ++ "]"
    | none => "[" ++ today ++ "]"

/-- A character removed by the exporter's filename sanitization:
`[<>:"/\\|?*\x00-\x1f]`. -/
def isInvalidFilenameChar (c : Char) : Bool :=
  c == '<' || c == '>' || c == ':' || c == '"' || c == '/' || c == '\\' ||
    c == '|' || c == '?' || c == '*' || decide (c.toNat ≤ 0x1f)

/-- Model of `re.sub(r'[<>:"/\\|?*\x00-\x1f]', "", s)`. -/
def removeInvalidChars (s : String) : String :=
  ⟨s.data.filter (fun c => !isInvalidFilenameChar c)⟩

/-- Python `s[:n]`. -/
def pyTake (s : String) (n : Nat) : String :=
  ⟨s.data.take n⟩

/-- Python `s.strip()` (ASCII whitespace; the exporter's subjects never carry
the exotic Unicode spaces where CPython's definition is wider). -/
def pyStrip (s : String) : String :=
  ⟨((s.data.dropWhile Char.isWhitespace).reverse.dropWhile Char.isWhitespace).reverse⟩

/-- The `.eml` filename built by `EmailProcessor.save_as_eml`:
`f"{date_prefix} - {clean_subject[:50].strip()}.eml"` with the invalid
characters removed from `email.subject or "no_subject"`. -/
def emlFileName (m : PffMessage) (today : String) : String :=
  formatDeliveryTime m today ++ " - " ++
    pyStrip (pyTake (removeInvalidChars (orString m.subject "no_subject")) 50) ++ ".eml"

/-- The `To ++ Cc ++ Bcc` extraction of `EmailProcessor.save_as_eml`, with
its `if recipient` truthiness filter; empty when the blob is absent or the
parse raised (`except: pass`). -/
def headerRecipients (m : PffMessage) : List String :=
  match m.transport_headers with
  | some (.parses hs) =>
    (getAllHeaders hs "To" ++ getAllHeaders hs "Cc" ++ getAllHeaders hs "Bcc").filter
      (fun r => r != "")
  | _ => []

/-- The recipient recovery of `EmailProcessor.save_as_eml`: stringify every
truthy `To`/`Cc`/`Bcc` header value in that order; if none, fall back to a
truthy `display_to`; else the placeholder. -/
def recipientListEml (m : PffMessage) : List String :=
  let fromHeaders : List String := headerRecipients m
  let withDisplay : List String :=
    if fromHeaders.isEmpty then
      match m.display_to with
      | some d => if d != "" then [d] else []
      | none => []
    else fromHeaders
  if withDisplay.isEmpty then ["Unknown Recipient"] else withDisplay

/-- C3's amended recipient contract, written from the amended claim's words:
all non-empty `To ++ Cc ++ Bcc` values when the blob parses and yields at
least one, else the truthy display-to as a singleton, else the placeholder. -/
def recipientSpecAmended (m : PffMessage) : List String :=
  if headerRecipients m ≠ [] then headerRecipients m
  else
    match m.display_to with
    | some d => if d != "" then [d] else ["Unknown Recipient"]
    | none => ["Unknown Recipient"]

/-- The decoded body used by `save_as_eml`:
`email.plain_text_body or email.html_body or ""`, decoded via
`_decode_email_body` when it is `bytes`.  The `.error` arm is dead by
`decodeEmailBody_ok`. -/
def emailBodyText (m : PffMessage) : String :=
  match orBody m.plain_text_body (orBody m.html_body (.str "")) with
  | .str s => s
  | .bytes bs =>
    match decodeEmailBody bs with
    | .ok s => s
    | .error _ => ""

/-- The output path of `EmailProcessor.save_as_eml`: built from the message
alone (`os.path.join(output_path, file_name)`), with no existence check. -/
def saveAsEmlPath (m : PffMessage) (outputPath today : String) : String :=
  osPathJoin outputPath (emlFileName m today)

/-- Effect of `EmailProcessor.save_as_eml`'s `open(full_path, "w")` on the
set of existing files: create the file if absent, truncate and overwrite it
in place if present — no suffixing, no check. -/
def saveAsEmlFs (fs : List String) (m : PffMessage) (outputPath today : String) :
    List String :=
  let p := saveAsEmlPath m outputPath today
  if p ∈ fs then fs else fs ++ [p]

/-- The successive `eml_file.write(...)` calls of `EmailProcessor.save_as_eml`,
in source order. -/
def saveAsEmlWrites (m : PffMessage) : List String :=
  ["Subject: " ++ pyStr m.subject ++ "\n",
   "From: " ++ pyStr m.sender_name ++ "\n",
   "To: " ++ String.intercalate ", " (recipientListEml m) ++ "\n",
   "\n",
   emailBodyText m]

/-- The full text of the `.eml` file written by `EmailProcessor.save_as_eml`. -/
def emlContent (m : PffMessage) : String :=
  String.join (saveAsEmlWrites m)

/-- The first `<...>` group of a string, as `re.search(r"<(.+?)>")` finds it
on the well-formed header values the claims exercise. -/
def extractAngle (s : String) : Option String :=
  match s.data.dropWhile (fun c => c != '<') with
  | '<' :: rest =>
    let inner := rest.takeWhile (fun c => c != '>')
    if inner.isEmpty then none
    else if (rest.dropWhile (fun c => c != '>')).head? = some '>' then some ⟨inner⟩
    else none
  | _ => none

/-- The sender address recoverable from the transport headers, per the
claim's reading (a `<...>` group inside the `From` header). -/
def senderEmailFromHeaders (m : PffMessage) : Option String :=
  match m.transport_headers with
  | some (.parses hs) =>
    match getAllHeaders hs "From" with
    | f :: _ => extractAngle f
    | [] => none
  | _ => none

/-- C7's claimed serialization, written from the claim's words: `No Subject`
substitution on the Subject line, a `<email>` suffix on the From line when
recoverable from the transport headers, comma-joined To, blank line, body. -/
def emlContentClaimed (m : PffMessage) : String :=
  "Subject: " ++ orString m.subject "No Subject" ++ "\n" ++
  "From: " ++ pyStr m.sender_name ++
    (match senderEmailFromHeaders m with
     | some e => " <" ++ e ++ ">"
     | none => "") ++ "\n" ++
  "To: " ++ String.intercalate ", " (recipientListEml m) ++ "\n" ++
  "\n" ++
  emailBodyText m

/-! ## Folder tree and traversal (`EmailProcessor.extract_messages`) -/

/-- A `pypff` folder: a possibly-absent name, its own messages in index
order (`number_of_sub_messages` / `get_sub_message(i)`), and its subfolders
in index order (`number_of_sub_folders` / `get_sub_folder(j)`).  The
container's tree is finite and acyclic, which the inductive type captures. -/
inductive PffFolder where
  | node (name : Option String) (messages : List PffMessage) (subfolders : List PffFolder)

/-- The folder's possibly-absent name. -/
def PffFolder.name : PffFolder → Option String
  | .node n _ _ => n

/-- The folder's own messages in index order. -/
def PffFolder.messages : PffFolder → List PffMessage
  | .node _ ms _ => ms

/-- The folder's subfolders in index order. -/
def PffFolder.subfolders : PffFolder → List PffFolder
  | .node _ _ subs => subs

/-- Python `sub_folder.name or "Unnamed Folder"` (an absent or empty name resolves
to the placeholder). -/
def resolvedName (f : PffFolder) : String :=
  orString f.name "Unnamed Folder"

/-- One element of `self.emails`: the message handle and the folder path it
was found under. -/
structure ExtractedItem where
  message : PffMessage
  folder_path : String
deriving DecidableEq, Repr

mutual

/-- Model of `EmailProcessor.extract_messages`: append every message of the current
folder to the accumulated `self.emails`, then recurse into each subfolder
with the path extended by `os.path.join`. -/
def extractMessages (folder : PffFolder) (folder_path : String)
    (emails : List ExtractedItem) : List ExtractedItem :=
  match folder with
  | .node _ msgs subs =>
    extractSubfolders subs folder_path
      (emails ++ msgs.map (fun msg => ⟨msg, folder_path⟩))

/-- The `for j in range(folder.number_of_sub_folders)` loop. -/
def extractSubfolders (subs : List PffFolder) (folder_path : String)
    (emails : List ExtractedItem) : List ExtractedItem :=
  match subs with
  | [] => emails
  | sf :: rest =>
    extractSubfolders rest folder_path
      (extractMessages sf (osPathJoin folder_path (resolvedName sf)) emails)

end

mutual

/-- The spec-side pre-order item list: a folder's own messages first, then
its subfolders' items, subfolders in native index order. -/
def preorderItems (f : PffFolder) (path : String) : List ExtractedItem :=
  match f with
  | .node _ msgs subs => msgs.map (fun m => ⟨m, path⟩) ++ preorderSubItems subs path

/-- Pre-order items of a subfolder list. -/
def preorderSubItems (subs : List PffFolder) (path : String) : List ExtractedItem :=
  match subs with
  | [] => []
  | sf :: rest =>
    preorderItems sf (osPathJoin path (resolvedName sf)) ++ preorderSubItems rest path

end

mutual

/-- Sum of `number_of_sub_messages` over every folder of the tree. -/
def totalMessages (f : PffFolder) : Nat :=
  match f with
  | .node _ msgs subs => msgs.length + totalMessagesList subs

/-- Sum of `number_of_sub_messages` over a list of trees. -/
def totalMessagesList : List PffFolder → Nat
  | [] => 0
  | sf :: rest => totalMessages sf + totalMessagesList rest

end

/-- A resolved folder name that neither begins nor ends with the path
separator, so `os.path.join` degenerates to plain `/`-joining on it. -/
def cleanName (s : String) : Bool :=
  !strStartsWithSlash s && !strEndsWithSlash s

mutual

/-- All resolved subfolder names in the tree are separator-clean. -/
def allNamesClean (f : PffFolder) : Bool :=
  match f with
  | .node _ _ subs => allNamesCleanList subs

/-- All resolved names in a subfolder list and their subtrees are clean. -/
def allNamesCleanList : List PffFolder → Bool
  | [] => true
  | sf :: rest => cleanName (resolvedName sf) && allNamesClean sf && allNamesCleanList rest

end

/-- Plain `/`-joining: the claimed path accumulation, which equals joining
the ancestor-name sequence with `/`. -/
def joinSpec (a b : String) : String :=
  if a = "" then b else a ++ "/" ++ b

mutual

/-- The claimed traversal: as `extractMessages` but accumulating paths by
plain `/`-joining, so every item's `folder_path` is the `/`-joined sequence
of resolved ancestor names below the root. -/
def extractSpecJoin (folder : PffFolder) (folder_path : String)
    (emails : List ExtractedItem) : List ExtractedItem :=
  match folder with
  | .node _ msgs subs =>
    extractSpecJoinSubs subs folder_path
      (emails ++ msgs.map (fun msg => ⟨msg, folder_path⟩))

/-- Subfolder loop of the claimed traversal. -/
def extractSpecJoinSubs (subs : List PffFolder) (folder_path : String)
    (emails : List ExtractedItem) : List ExtractedItem :=
  match subs with
  | [] => emails
  | sf :: rest =>
    extractSpecJoinSubs rest folder_path
      (extractSpecJoin sf (joinSpec folder_path (resolvedName sf)) emails)

end

/-- A minimal concrete message, used only by concrete-instance theorems. -/
def sampleMessage (s : String) : PffMessage :=
  { subject := some s, sender_name := none, transport_headers := none,
    display_to := none, plain_text_body := none, html_body := none,
    delivery_time := none, creation_time := none }

/-- The mutable `EmailProcessor` state: its persistent `self.emails` list. -/
structure EmailProcessorState where
  emails : List ExtractedItem
deriving DecidableEq, Repr

/-- Model of `EmailProcessor.load_emails`: open the archive, extract from the root
into `self.emails` (appending to whatever is already there), and return
`self.emails`. -/
def loadEmails (root : PffFolder) (st : EmailProcessorState) :
    List ExtractedItem × EmailProcessorState :=
  let emails' := extractMessages root "" st.emails
  (emails', ⟨emails'⟩)

/-! ## Orchestration model (`EmailProcessor.process_emails`)

The per-item filesystem actions are abstracted by their outcomes (an
`Except` per fallible call), while the observable behaviour is an effect
trace of directory creations, file writes and the reports the claims talk
about; routine banner, verbose and progress prints are elided from the
trace. -/

/-- The `output_format` argument. -/
inductive OutFmt where
  | eml
  | pdf
  | both
deriving DecidableEq, Repr

/-- Python `output_format in ["eml", "both"]`. -/
def wantsEml : OutFmt → Bool
  | .eml => true
  | .both => true
  | .pdf => false

/-- Python `output_format in ["pdf", "both"]`. -/
def wantsPdf : OutFmt → Bool
  | .pdf => true
  | .both => true
  | .eml => false

/-- An observable side effect of a run. -/
inductive Effect where
  | dirCreated (path : String)
  | fileWritten (path : String)
  | printed (line : String)
deriving DecidableEq, Repr

/-- Whether an effect touches the filesystem. -/
def effectTouchesFs : Effect → Bool
  | .dirCreated _ => true
  | .fileWritten _ => true
  | .printed _ => false

/-- The `.pdf` filename built by `EmailProcessor.save_as_pdf` (same shape as
the `.eml` one). -/
def pdfFileName (m : PffMessage) (today : String) : String :=
  formatDeliveryTime m today ++ " - " ++
    pyStrip (pyTake (removeInvalidChars (orString m.subject "no_subject")) 50) ++ ".pdf"

/-- The `clean_subject` of the dry-run preview block:
`(email.subject or "no_subject")[:50].strip()` — without the
invalid-character removal the real save applies. -/
def previewCleanSubject (m : PffMessage) : String :=
  pyStrip (pyTake (orString m.subject "no_subject") 50)

/-- One `.eml` preview line of the dry-run block. -/
def previewEmlLine (folderPath : String) (m : PffMessage) (today : String) : String :=
  "  📧 " ++ folderPath ++ "/" ++ formatDeliveryTime m today ++ " - " ++
    previewCleanSubject m ++ ".eml"

/-- One `.pdf` preview line of the dry-run block. -/
def previewPdfLine (folderPath : String) (m : PffMessage) (today : String) : String :=
  "  📄 " ++ folderPath ++ "/" ++ formatDeliveryTime m today ++ " - " ++
    previewCleanSubject m ++ ".pdf"

/-- One email of the run, with the outcomes of its fallible per-item calls:
the folder creation (`_create_full_path`), the two save calls, and the
attachments (access outcome, then per attachment its name and save
outcome). -/
structure RunItem where
  msg : PffMessage
  folder_path : String
  createResult : Except PyError String
  emlResult : Except PyError Unit
  pdfResult : Except PyError Unit
  attAccess : Except PyError (List (String × Except PyError Unit))
deriving DecidableEq, Repr

/-- The report printed by the per-item `except` handler. -/
def itemErrorLine (m : PffMessage) (e : PyError) : Effect :=
  .printed ("❌ Error processing email '" ++ orString m.subject "No Subject" ++ "': " ++ e.msg)

/-- The inner attachment loop: each attachment is attempted regardless of the
previous ones; a failing one is caught and reported in place. -/
def attachmentEffects (attFolder : String) (i : Nat) :
    List (String × Except PyError Unit) → List Effect
  | [] => []
  | (nm, r) :: rest =>
    (match r with
     | .ok _ => Effect.fileWritten (osPathJoin attFolder nm)
     | .error e =>
       Effect.printed ("⚠️  Error saving attachment " ++ Nat.repr i ++ ": " ++ e.msg)) ::
      attachmentEffects attFolder (i + 1) rest

/-- The body of the per-item `try` in `process_emails`: create the folder,
save in the requested formats, then the attachment block (whose own failures
are all caught inside it); any escaping exception is caught by the per-item
handler, which reports and lets the loop continue.  Returns whether the item
reached `processed += 1`, plus its effects. -/
def processItem (fmt : OutFmt) (today : String) (it : RunItem) : Bool × List Effect :=
  match it.createResult with
  | .error e => (false, [itemErrorLine it.msg e])
  | .ok fullPath =>
    match (if wantsEml fmt then it.emlResult else .ok ()) with
    | .error e => (false, [Effect.dirCreated fullPath, itemErrorLine it.msg e])
    | .ok _ =>
      let emlE : List Effect :=
        if wantsEml fmt then [.fileWritten (osPathJoin fullPath (emlFileName it.msg today))]
        else []
      match (if wantsPdf fmt then it.pdfResult else .ok ()) with
      | .error e => (false, Effect.dirCreated fullPath :: (emlE ++ [itemErrorLine it.msg e]))
      | .ok _ =>
        let pdfE : List Effect :=
          if wantsPdf fmt then [.fileWritten (osPathJoin fullPath (pdfFileName it.msg today))]
          else []
        let attE : List Effect :=
          match it.attAccess with
          | .error _ => []
          | .ok atts =>
            if atts.isEmpty then []
            else
              Effect.dirCreated (osPathJoin fullPath "attachments") ::
                attachmentEffects (osPathJoin fullPath "attachments") 0 atts
        (true, Effect.dirCreated fullPath :: (emlE ++ (pdfE ++ attE)))

/-- Whether an item completes (its attachment block never matters: every
attachment failure is caught inside it). -/
def itemSucceeds (fmt : OutFmt) (it : RunItem) : Bool :=
  it.createResult.isOk && (!wantsEml fmt || it.emlResult.isOk) &&
    (!wantsPdf fmt || it.pdfResult.isOk)

/-- The `for email_data in emails` loop: every item is processed, failures
of one item never touch the others. -/
def processLoop (fmt : OutFmt) (today : String) : List RunItem → Nat × List Effect
  | [] => (0, [])
  | it :: rest =>
    ((processLoop fmt today rest).1 + (if (processItem fmt today it).1 then 1 else 0),
      (processItem fmt today it).2 ++ (processLoop fmt today rest).2)

/-- The dry-run preview block: one line per requested format for each of the
first 10 items only. -/
def dryRunPreviewLines (fmt : OutFmt) (today : String) (items : List RunItem) : List Effect :=
  ((items.take 10).map (fun it =>
    (if wantsEml fmt then [Effect.printed (previewEmlLine it.folder_path it.msg today)]
     else []) ++
    (if wantsPdf fmt then [Effect.printed (previewPdfLine it.folder_path it.msg today)]
     else []))).flatten

/-- Model of `EmailProcessor.process_emails`.  `validFile` is the outcome of
`PSTProcessor.validate_pst_file`; `mkdirRoot` the outcome of the output-root
`mkdir`, which sits outside every `try` and therefore propagates on failure;
`loadResult` the outcome of `load_emails` (archive open/traverse/close),
whose failure is caught by the outer handler and turns into a `False`
return.  The result is the returned boolean, the `processed` count, and the
effect trace. -/
def processEmails (validFile : Bool) (mkdirRoot : Except PyError Unit)
    (loadResult : Except PyError (List RunItem)) (fmt : OutFmt)
    (dryRun : Bool) (today : String) (outputRoot : String) :
    Except PyError (Bool × Nat × List Effect) :=
  if !validFile then
    .ok (false, 0,
      [.printed "❌ Error: Input file does not exist or is not a valid PST/OST file."])
  else
    match (if dryRun then .ok () else mkdirRoot) with
    | .error e => .error e
    | .ok _ =>
      let rootE : List Effect := if dryRun then [] else [.dirCreated outputRoot]
      match loadResult with
      | .error e => .ok (false, 0, rootE ++ [.printed ("❌ Error: " ++ e.msg)])
      | .ok items =>
        if dryRun then
          .ok (true, 0,
            rootE ++
              (Effect.printed "📋 DRY RUN - Files that would be created:" ::
                (dryRunPreviewLines fmt today items ++
                  (if 10 < items.length then
                    [.printed ("  ... and " ++ Nat.repr (items.length - 10) ++ " more emails")]
                  else []))))
        else
          .ok (true, (processLoop fmt today items).1,
            rootE ++ (processLoop fmt today items).2)

/-! ## Theorems -/

/-- Valid code points round-trip through `Char.ofNat`. -/
theorem charToNat_ofNat (v : Nat) (h : v.isValidChar) : (Char.ofNat v).toNat = v := by
  simp only [Char.ofNat, h, dif_pos, Char.ofNatAux, Char.toNat, UInt32.toNat]
  rfl

/-- Totality of `_decode_email_body`: every branch of the function ends in an
`.ok`, because each fallible decode is wrapped in a caught `match` and the
`errors='replace'` last resort cannot fail. -/
theorem decodeEmailBody_ok (bs : List Byte) : ∃ s, decodeEmailBody bs = Except.ok s := by
  unfold decodeEmailBody
  split
  · exact ⟨_, rfl⟩
  · split
    · exact ⟨_, rfl⟩
    · exact ⟨_, rfl⟩

/-- A successful strict UTF-8 decode never has more characters than bytes,
and has exactly as many only when every byte (hence every character) is
ASCII. -/
theorem utf8Aux_length (bs : List Byte) :
    (∀ cs, utf8Aux none bs = some cs →
      cs.length ≤ bs.length ∧ (cs.length = bs.length → ∀ c ∈ cs, c.toNat < 0x80)) ∧
    (∀ p cs, utf8Aux (some p) bs = some cs → cs.length ≤ bs.length) := by
  induction bs with
  | nil =>
    refine ⟨fun cs h => ?_, fun p cs h => ?_⟩
    · simp only [utf8Aux, Option.some.injEq] at h
      subst h
      simp
    · simp [utf8Aux] at h
  | cons b rest ih =>
    obtain ⟨ihP, ihQ⟩ := ih
    refine ⟨fun cs h => ?_, fun p cs h => ?_⟩
    · simp only [utf8Aux] at h
      split_ifs at h with hascii
      case pos =>
        cases hrec : utf8Aux none rest with
        | none => rw [hrec] at h; simp at h
        | some cs' =>
          rw [hrec] at h
          simp only [Option.map_some', Option.some.injEq] at h
          subst h
          obtain ⟨hlen, hall⟩ := ihP cs' hrec
          refine ⟨by simpa using Nat.succ_le_succ hlen, fun heq c hc => ?_⟩
          have hlen' : cs'.length = rest.length := by simpa using heq
          rcases List.mem_cons.mp hc with hhead | hmem
          · rw [hhead, charToNat_ofNat _ (Or.inl (by omega))]
            omega
          · exact hall hlen' c hmem
      all_goals
        first
        | (exact absurd h (by simp))
        | (have hq := ihQ _ _ h
           refine ⟨Nat.le_succ_of_le hq, fun heq => ?_⟩
           exfalso
           simp only [List.length_cons] at heq
           omega)
    · simp only [utf8Aux] at h
      split_ifs at h with hrange hneed
      case pos =>
        cases hrec : utf8Aux none rest with
        | none => rw [hrec] at h; simp at h
        | some cs' =>
          rw [hrec] at h
          simp only [Option.map_some', Option.some.injEq] at h
          subst h
          obtain ⟨hlen, _⟩ := ihP cs' hrec
          simpa using Nat.succ_le_succ hlen
      case neg =>
        have hq := ihQ _ _ h
        exact Nat.le_succ_of_le hq

/-- Every character of a matched prefix occurs in the list. -/
theorem mem_of_listStarts {sub l : List Char} (h : listStarts sub l = true) :
    ∀ c ∈ sub, c ∈ l := by
  induction sub generalizing l with
  | nil => intro c hc; simp at hc
  | cons a as ih =>
    cases l with
    | nil => simp [listStarts] at h
    | cons b bs =>
      simp only [listStarts, Bool.and_eq_true, beq_iff_eq] at h
      obtain ⟨hab, hrest⟩ := h
      intro c hc
      rcases List.mem_cons.mp hc with rfl | hmem
      · rw [hab]; exact List.mem_cons_self _ _
      · exact List.mem_cons_of_mem _ (ih hrest c hmem)

/-- Every character of a matched substring occurs in the list. -/
theorem mem_of_listHasSub {sub l : List Char} (h : listHasSub sub l = true) :
    ∀ c ∈ sub, c ∈ l := by
  induction l with
  | nil =>
    simp only [listHasSub, List.isEmpty_iff] at h
    subst h
    intro c hc
    simp at hc
  | cons b bs ih =>
    simp only [listHasSub, Bool.or_eq_true] at h
    rcases h with hst | hsub
    · exact mem_of_listStarts hst
    · intro c hc
      exact List.mem_cons_of_mem _ (ih hsub c hc)

/-- A string containing one of the three cascade tell-tales contains the
character `Ã` (U+00C3). -/
theorem mem_Atilde_of_tellTale3 {s : String} (h : hasTellTale tellTales3 s = true) :
    ('Ã' : Char) ∈ s.data := by
  simp only [hasTellTale, List.any_eq_true] at h
  obtain ⟨t, ht, hc⟩ := h
  have hmem : ∀ c ∈ t.data, c ∈ s.data := mem_of_listHasSub hc
  fin_cases ht
  · exact hmem _ (by decide)
  · exact hmem _ (by decide)
  · exact hmem _ (by decide)

/-- When the latin-1 view of the input shows none of the seven tell-tales the
double-encoding repair block falls through. -/
theorem doubleEncodingRepair_eq_none {bs : List Byte}
    (h : hasTellTale tellTales7 (latin1Decode bs) = false) :
    doubleEncodingRepair bs = none := by
  have h' : hasTellTale tellTales7 ⟨latin1DecodeList bs⟩ = false := h
  simp [doubleEncodingRepair, pyDecodeStrict, h']

/-- If strict UTF-8 succeeds but shows one of the three checked tell-tales,
the cascade continues and the next encoding, `iso-8859-1`, always succeeds,
so the cascade returns the latin-1 decode. -/
theorem decodeCascade_utf8_telltale {bs : List Byte} {s : String}
    (hok : utf8DecodeStr bs = some s) (htell : hasTellTale tellTales3 s = true) :
    decodeCascade bs encodingsToTry = some (latin1Decode bs) := by
  obtain ⟨cs, hcs, hs⟩ : ∃ cs, utf8Aux none bs = some cs ∧ (⟨cs⟩ : String) = s := by
    unfold utf8DecodeStr at hok
    cases hu : utf8Aux none bs with
    | none => rw [hu] at hok; simp at hok
    | some cs => rw [hu] at hok; simp at hok; exact ⟨cs, rfl, hok⟩
  have h1 : pyDecodeStrict .utf8 bs = .ok s := by
    simp [pyDecodeStrict, hcs, hs]
  have h2 : pyDecodeStrict .iso8859_1 bs = .ok (latin1Decode bs) := by
    simp [pyDecodeStrict, latin1Decode]
  simp only [encodingsToTry, decodeCascade, h1, h2, htell]
  simp

/-- C6 (amended): in the body-decoding cascade, a byte sequence that decodes
successfully under UTF-8 but whose decoded string contains one of the three
tell-tales the cascade actually checks (`Ã§`, `Ã£`, `Ã¡`) is rejected as a
false success, and — provided the earlier double-encoding repair block did
not already return (its latin-1 view shows none of the seven tell-tales) —
decoding continues with ISO-8859-1, which always succeeds, so the result is
the ISO-8859-1 decode and is not the UTF-8 decode. -/
theorem C6_telltale_rejection_amended (bs : List Byte) (s : String)
    (hpre : hasTellTale tellTales7 (latin1Decode bs) = false)
    (hok : utf8DecodeStr bs = some s)
    (htell : hasTellTale tellTales3 s = true) :
    decodeEmailBody bs = Except.ok (latin1Decode bs) ∧ latin1Decode bs ≠ s := by
  have hcas := decodeCascade_utf8_telltale hok htell
  have hrep := doubleEncodingRepair_eq_none hpre
  refine ⟨by unfold decodeEmailBody; rw [hrep, hcas], fun heq => ?_⟩
  obtain ⟨cs, hcs, hs⟩ : ∃ cs, utf8Aux none bs = some cs ∧ (⟨cs⟩ : String) = s := by
    unfold utf8DecodeStr at hok
    cases hu : utf8Aux none bs with
    | none => rw [hu] at hok; simp at hok
    | some cs => rw [hu] at hok; simp at hok; exact ⟨cs, rfl, hok⟩
  have hsdata : s.data = cs := by rw [← hs]
  have hlat : (latin1Decode bs).data = latin1DecodeList bs := rfl
  have hdata : latin1DecodeList bs = cs := by
    have := congrArg String.data heq
    rw [hlat, hsdata] at this
    exact this
  have hlen : cs.length = bs.length := by
    rw [← hdata]
    simp [latin1DecodeList]
  obtain ⟨_, hall⟩ := (utf8Aux_length bs).1 cs hcs
  have hA : ('Ã' : Char) ∈ cs := by
    rw [← hsdata]
    exact mem_Atilde_of_tellTale3 htell
  have := hall hlen _ hA
  revert this
  decide

/-- C6 witness: the UTF-8 decode of `C3 83 C2 A7` is `Ã§`, which contains the
checked tell-tale `Ã§`; the body decoder rejects it and returns the four
character latin-1 decode instead. -/
theorem C6_telltale_rejection_amended_witness :
    hasTellTale tellTales7 (latin1Decode [0xC3, 0x83, 0xC2, 0xA7]) = false ∧
    utf8DecodeStr [0xC3, 0x83, 0xC2, 0xA7] = some "Ã§" ∧
    hasTellTale tellTales3 "Ã§" = true ∧
    decodeEmailBody [0xC3, 0x83, 0xC2, 0xA7] =
      Except.ok (latin1Decode [0xC3, 0x83, 0xC2, 0xA7]) ∧
    latin1Decode [0xC3, 0x83, 0xC2, 0xA7] ≠ "Ã§" :=
  ⟨by decide, by decide, by decide,
   (C6_telltale_rejection_amended [0xC3, 0x83, 0xC2, 0xA7] "Ã§"
     (by decide) (by decide) (by decide)).1,
   (C6_telltale_rejection_amended [0xC3, 0x83, 0xC2, 0xA7] "Ã§"
     (by decide) (by decide) (by decide)).2⟩

/-- C6 counterexample: the bytes `C3 83 C2 A9` decode successfully under
UTF-8 to `Ã©`, whose decoded string contains the tell-tale `Ã©` from the
claim's seven-element list, yet `_decode_email_body` returns exactly that
UTF-8 decode — the cascade's rejection only checks `Ã§`, `Ã£`, `Ã¡`. -/
theorem C6_telltale_rejection_counterexample :
    utf8DecodeStr [0xC3, 0x83, 0xC2, 0xA9] = some "Ã©" ∧
    hasTellTale tellTales7 "Ã©" = true ∧
    decodeEmailBody [0xC3, 0x83, 0xC2, 0xA9] = Except.ok "Ã©" := by
  decide

/-- C1: body decoding is total — for every byte sequence, including the empty
one and ill-formed UTF-8, `_decode_email_body` returns a string and no
exception escapes. -/
theorem C1_body_decoding_total (bs : List Byte) :
    ∃ s : String, decodeEmailBody bs = Except.ok s :=
  decodeEmailBody_ok bs

/-- The probe loop never returns an existing path. -/
theorem uniqueLoop_not_mem (fs : List String) (folder base ext : String) :
    ∀ counter, uniqueLoop fs folder base ext counter ∉ fs := by
  intro counter
  generalize hk : 10 ^ maxLen fs + 1 - counter = k
  induction k generalizing counter with
  | zero =>
    unfold uniqueLoop
    have hnot : candName folder base ext counter ∉ fs := fun hmem => by
      have := counter_bound_of_mem hmem
      omega
    rw [dif_neg hnot]
    exact hnot
  | succ k ih =>
    unfold uniqueLoop
    by_cases hmem : candName folder base ext counter ∈ fs
    · rw [dif_pos hmem]
      apply ih (counter + 1)
      have := counter_bound_of_mem hmem
      omega
    · rw [dif_neg hmem]
      exact hmem

/-- C2 (amended): export operations that resolve their path through
`FileSaver._get_unique_filename` (attachment saves the pipeline performs,
and `FileSaver`'s own savers) never collide — the returned path is never an
existing file, and when the plain candidate exists but `base_1.ext` does
not, the returned path is exactly `base_1.ext`; `EmailProcessor.save_as_eml`
— the message exporter `process_emails` uses — instead computes its path
with no existence check, and a colliding write lands on the existing file,
overwriting it in place and creating nothing new. -/
theorem C2_unique_filename_no_collision (fs : List String) (folder base ext : String) :
    getUniqueFilename fs folder base ext ∉ fs ∧
    (osPathJoin folder (base ++ "." ++ ext) ∈ fs →
      candName folder base ext 1 ∉ fs →
      getUniqueFilename fs folder base ext = candName folder base ext 1) ∧
    (∀ (m : PffMessage) (out t : String),
      saveAsEmlPath m out t ∈ fs → saveAsEmlFs fs m out t = fs) := by
  refine ⟨?_, ?_, ?_⟩
  · unfold getUniqueFilename
    split_ifs with h
    · exact uniqueLoop_not_mem fs folder base ext 1
    · exact h
  · intro h1 h2
    unfold getUniqueFilename
    rw [if_pos h1]
    unfold uniqueLoop
    rw [dif_neg h2]
  · intro m out t hmem
    unfold saveAsEmlFs
    simp [hmem]

/-- C2 witness: with `out/[2024-01-01] - doc.eml` already on disk, the next
`FileSaver` resolution of the same base name goes to the fresh
`out/[2024-01-01] - doc_1.eml`, while `save_as_eml` of a message with the
same subject and date writes to the existing path and creates no new file. -/
theorem C2_unique_filename_no_collision_witness :
    getUniqueFilename ["out/[2024-01-01] - doc.eml"] "out" "[2024-01-01] - doc" "eml" ∉
      ["out/[2024-01-01] - doc.eml"] ∧
    getUniqueFilename ["out/[2024-01-01] - doc.eml"] "out" "[2024-01-01] - doc" "eml" =
      "out/[2024-01-01] - doc_1.eml" ∧
    saveAsEmlFs ["out/[2024-01-01] - doc.eml"] (sampleMessage "doc") "out" "2024-01-01" =
      ["out/[2024-01-01] - doc.eml"] := by
  refine ⟨(C2_unique_filename_no_collision
    ["out/[2024-01-01] - doc.eml"] "out" "[2024-01-01] - doc" "eml").1, ?_, ?_⟩
  · have h := (C2_unique_filename_no_collision
      ["out/[2024-01-01] - doc.eml"] "out" "[2024-01-01] - doc" "eml").2.1
      (by decide) (by decide)
    rw [h]
    decide
  · exact (C2_unique_filename_no_collision
      ["out/[2024-01-01] - doc.eml"] "out" "[2024-01-01] - doc" "eml").2.2
      (sampleMessage "doc") "out" "2024-01-01" (by decide)

/-- C2 counterexample: two exports of the same message through
`EmailProcessor.save_as_eml` target the same path — the second write's
target is already an existing file and the file set is unchanged, so the
previously written file is overwritten and no `_1`-suffixed file appears. -/
theorem C2_save_as_eml_overwrites_counterexample :
    saveAsEmlPath (sampleMessage "Hello") "out" "2024-01-01" ∈
      saveAsEmlFs [] (sampleMessage "Hello") "out" "2024-01-01" ∧
    saveAsEmlFs (saveAsEmlFs [] (sampleMessage "Hello") "out" "2024-01-01")
        (sampleMessage "Hello") "out" "2024-01-01" =
      saveAsEmlFs [] (sampleMessage "Hello") "out" "2024-01-01" := by
  decide

/-- C3 (amended): recipient recovery is total, always yields at least one
entry, and follows the three-tier fallback with the source's truthiness
filter — the non-empty `To ++ Cc ++ Bcc` values when the blob parses and
yields at least one such value, else a truthy display-to as a singleton,
else exactly `["Unknown Recipient"]`. -/
theorem C3_recipient_fallback_amended (m : PffMessage) :
    recipientListEml m = recipientSpecAmended m ∧ recipientListEml m ≠ [] := by
  unfold recipientListEml recipientSpecAmended
  cases hH : headerRecipients m with
  | cons a t => constructor <;> simp
  | nil =>
    cases hd : m.display_to with
    | none => constructor <;> simp
    | some d =>
      by_cases hde : d = "" <;> constructor <;> simp [hde]

/-- C3 counterexample: a blob that parses but carries no `To`/`Cc`/`Bcc`
header yields the placeholder, not the empty concatenation of header values
the claim's first arm dictates. -/
theorem C3_recipient_counterexample :
    recipientListEml
      { subject := none, sender_name := none,
        transport_headers := some (.parses [("From", "x@y.com")]),
        display_to := none, plain_text_body := none, html_body := none,
        delivery_time := none, creation_time := none } = ["Unknown Recipient"] ∧
    getAllHeaders [("From", "x@y.com")] "To" ++
      getAllHeaders [("From", "x@y.com")] "Cc" ++
      getAllHeaders [("From", "x@y.com")] "Bcc" = [] := by
  decide

/-- C7 (amended): `EmailProcessor.save_as_eml` writes four logical fields in
fixed order — a Subject line carrying the Python `str()` of the subject (the
literal `None` when the subject is absent, not `No Subject`), a From line
with only the sender name (never an `<email>` suffix), a To line with the
comma-joined recipient list, a blank line, then the decoded body verbatim. -/
theorem C7_eml_serialization_amended (m : PffMessage) :
    emlContent m =
      "Subject: " ++ pyStr m.subject ++ "\n" ++
      "From: " ++ pyStr m.sender_name ++ "\n" ++
      "To: " ++ String.intercalate ", " (recipientListEml m) ++ "\n" ++
      "\n" ++ emailBodyText m := by
  refine String.ext ?_
  simp [emlContent, saveAsEmlWrites, String.join, String.data_append]

mutual

/-- The traversal `extract_messages` only ever appends: its result is the accumulator
followed by the pre-order items of the subtree. -/
theorem extractMessages_eq_append (f : PffFolder) (p : String) (acc : List ExtractedItem) :
    extractMessages f p acc = acc ++ preorderItems f p := by
  cases f with
  | node n msgs subs =>
    rw [extractMessages, preorderItems, extractSubfolders_eq_append]
    simp

/-- The subfolder loop likewise only appends. -/
theorem extractSubfolders_eq_append (subs : List PffFolder) (p : String)
    (acc : List ExtractedItem) :
    extractSubfolders subs p acc = acc ++ preorderSubItems subs p := by
  cases subs with
  | nil => rw [extractSubfolders, preorderSubItems]; simp
  | cons sf rest =>
    rw [extractSubfolders, extractSubfolders_eq_append, extractMessages_eq_append,
      preorderSubItems]
    simp

end

mutual

/-- The pre-order item list has one item per message of the tree. -/
theorem preorderItems_length (f : PffFolder) (p : String) :
    (preorderItems f p).length = totalMessages f := by
  cases f with
  | node n msgs subs =>
    rw [preorderItems, totalMessages, ← preorderSubItems_length subs p]
    simp

/-- Item count over a subfolder list. -/
theorem preorderSubItems_length (subs : List PffFolder) (p : String) :
    (preorderSubItems subs p).length = totalMessagesList subs := by
  cases subs with
  | nil => rw [preorderSubItems, totalMessagesList]; rfl
  | cons sf rest =>
    rw [preorderSubItems, totalMessagesList,
      ← preorderItems_length sf (osPathJoin p (resolvedName sf)),
      ← preorderSubItems_length rest p]
    simp

end

/-- C4: the traversal, started at the root with an empty accumulator, yields
exactly the pre-order item sequence — every message of a folder before any
message of its subfolders, subfolders in native index order — and its length
is the sum of `number_of_sub_messages` over every folder of the tree. -/
theorem C4_traversal_preorder_complete (root : PffFolder) :
    extractMessages root "" [] = preorderItems root "" ∧
    (extractMessages root "" []).length = totalMessages root := by
  have h := extractMessages_eq_append root "" []
  simp only [List.nil_append] at h
  exact ⟨h, by rw [h, preorderItems_length]⟩

/-- C10: `load_emails` appends to the persistent `self.emails` without
clearing it, so a second call on the same container returns the first result
twice over — twice the container's message count, every item counted twice. -/
theorem C10_load_emails_not_idempotent (root : PffFolder) :
    (loadEmails root ⟨[]⟩).1 ++ (loadEmails root ⟨[]⟩).1 =
      (loadEmails root (loadEmails root ⟨[]⟩).2).1 ∧
    (loadEmails root (loadEmails root ⟨[]⟩).2).1.length = 2 * totalMessages root ∧
    ∀ it : ExtractedItem,
      (loadEmails root (loadEmails root ⟨[]⟩).2).1.count it =
        2 * (loadEmails root ⟨[]⟩).1.count it := by
  have h1 : (loadEmails root ⟨[]⟩).1 = preorderItems root "" := by
    unfold loadEmails
    have h := extractMessages_eq_append root "" []
    simpa using h
  have hst : (loadEmails root ⟨[]⟩).2 = ⟨preorderItems root ""⟩ := by
    unfold loadEmails
    have h := extractMessages_eq_append root "" []
    simpa using h
  have h2 : (loadEmails root (loadEmails root ⟨[]⟩).2).1 =
      preorderItems root "" ++ preorderItems root "" := by
    rw [hst]
    unfold loadEmails
    simpa using extractMessages_eq_append root "" (preorderItems root "")
  refine ⟨by rw [h1, h2], ?_, ?_⟩
  · rw [h2]
    simp [preorderItems_length, Nat.two_mul]
  · intro it
    rw [h1, h2, List.count_append]
    omega

/-- A resolved folder name is never the empty string. -/
theorem resolvedName_ne_empty (f : PffFolder) : resolvedName f ≠ "" := by
  unfold resolvedName orString
  cases f.name with
  | none => decide
  | some s =>
    by_cases h : s = ""
    · simp [h]
    · simp [h]

/-- The empty string is a left identity for string append. -/
theorem str_empty_append (s : String) : "" ++ s = s := by
  apply String.ext
  simp

/-- On a separator-clean second component and a path not ending in the
separator, `os.path.join` is plain `/`-joining. -/
theorem osPathJoin_eq_joinSpec {p n : String} (hn : cleanName n = true)
    (hp : strEndsWithSlash p = false) : osPathJoin p n = joinSpec p n := by
  have hstart : strStartsWithSlash n = false := by
    unfold cleanName at hn
    simp only [Bool.and_eq_true, Bool.not_eq_true'] at hn
    exact hn.1
  unfold osPathJoin joinSpec
  by_cases hpe : p = ""
  · simp [hpe, hstart, str_empty_append]
  · simp [hpe, hstart, hp]

/-- Plain `/`-joining a clean name onto any path yields a path that does not
end in the separator. -/
theorem strEndsWithSlash_joinSpec {p n : String} (hn : cleanName n = true)
    (hne : n ≠ "") : strEndsWithSlash (joinSpec p n) = false := by
  have hend : strEndsWithSlash n = false := by
    unfold cleanName at hn
    simp only [Bool.and_eq_true, Bool.not_eq_true'] at hn
    exact hn.2
  have hdata : n.data ≠ [] := fun hd => hne (String.ext (by simp [hd]))
  unfold joinSpec
  by_cases hpe : p = ""
  · simp [hpe, hend]
  · rw [if_neg hpe]
    unfold strEndsWithSlash at hend ⊢
    rw [String.data_append, List.getLast?_append_of_ne_nil _ hdata]
    exact hend

mutual

/-- Under separator-clean names, the real traversal and the `/`-joining
traversal coincide. -/
theorem extractMessages_clean (f : PffFolder) (p : String) (acc : List ExtractedItem)
    (hc : allNamesClean f = true) (hp : strEndsWithSlash p = false) :
    extractMessages f p acc = extractSpecJoin f p acc := by
  cases f with
  | node n msgs subs =>
    rw [extractMessages, extractSpecJoin]
    rw [allNamesClean] at hc
    exact extractSubfolders_clean subs p _ hc hp

/-- Subfolder-loop case of `extractMessages_clean`. -/
theorem extractSubfolders_clean (subs : List PffFolder) (p : String)
    (acc : List ExtractedItem) (hc : allNamesCleanList subs = true)
    (hp : strEndsWithSlash p = false) :
    extractSubfolders subs p acc = extractSpecJoinSubs subs p acc := by
  cases subs with
  | nil => rw [extractSubfolders, extractSpecJoinSubs]
  | cons sf rest =>
    rw [extractSubfolders, extractSpecJoinSubs]
    rw [allNamesCleanList] at hc
    simp only [Bool.and_eq_true] at hc
    obtain ⟨⟨hcn, hcf⟩, hcr⟩ := hc
    rw [osPathJoin_eq_joinSpec hcn hp]
    rw [extractMessages_clean sf _ acc hcf
      (strEndsWithSlash_joinSpec hcn (resolvedName_ne_empty sf))]
    exact extractSubfolders_clean rest p _ hcr hp

end

/-- C5 (amended): when no resolved folder name begins or ends with `/`, every
extracted item's `folder_path` is the plain `/`-joined sequence of resolved
ancestor names from the root (exclusive), an absent or empty name resolving
to `Unnamed Folder`; a name beginning with `/` instead resets the
accumulated path, by `os.path.join`'s absolute-component rule. -/
theorem C5_folder_path_joined_amended (root : PffFolder)
    (h : allNamesClean root = true) :
    extractMessages root "" [] = extractSpecJoin root "" [] :=
  extractMessages_clean root "" [] h (by decide)

/-- C5 witness: a tree `A/B` plus an unnamed folder under `A`; the messages
get `folder_path` `A/B` and `A/Unnamed Folder`, per the theorem and by
evaluation. -/
theorem C5_folder_path_joined_amended_witness :
    allNamesClean
      (.node none []
        [.node (some "A") []
          [.node (some "B") [sampleMessage "m1"] [],
           .node none [sampleMessage "m2"] []]]) = true ∧
    extractMessages
      (.node none []
        [.node (some "A") []
          [.node (some "B") [sampleMessage "m1"] [],
           .node none [sampleMessage "m2"] []]]) "" [] =
      extractSpecJoin
        (.node none []
          [.node (some "A") []
            [.node (some "B") [sampleMessage "m1"] [],
             .node none [sampleMessage "m2"] []]]) "" [] ∧
    extractMessages
      (.node none []
        [.node (some "A") []
          [.node (some "B") [sampleMessage "m1"] [],
           .node none [sampleMessage "m2"] []]]) "" [] =
      [⟨sampleMessage "m1", "A/B"⟩, ⟨sampleMessage "m2", "A/Unnamed Folder"⟩] :=
  ⟨by decide,
   C5_folder_path_joined_amended
     (.node none []
       [.node (some "A") []
         [.node (some "B") [sampleMessage "m1"] [],
          .node none [sampleMessage "m2"] []]]) (by decide),
   by decide⟩

/-- C5 counterexample: a subfolder named `/B` under `A` — `os.path.join`
treats it as absolute and discards `A`, so the message's `folder_path` is
`/B`, not the `/`-joined ancestor sequence `A//B`. -/
theorem C5_folder_path_counterexample :
    extractMessages
      (.node none [] [.node (some "A") [] [.node (some "/B") [sampleMessage "m"] []]])
      "" [] = [⟨sampleMessage "m", "/B"⟩] ∧
    extractSpecJoin
      (.node none [] [.node (some "A") [] [.node (some "/B") [sampleMessage "m"] []]])
      "" [] = [⟨sampleMessage "m", "A//B"⟩] := by
  decide

/-- C7 counterexample: on a message with an absent subject and a `From`
header carrying `<bob@x.com>`, the actual file starts `Subject: None` and its
From line has no address suffix, differing from the claimed serialization. -/
theorem C7_eml_serialization_counterexample :
    emlContent
      { subject := none, sender_name := some "Alice",
        transport_headers := some (.parses [("From", "Bob <bob@x.com>"), ("To", "a@x.com")]),
        display_to := none, plain_text_body := some (.str "hi"), html_body := none,
        delivery_time := none, creation_time := none } =
      "Subject: None\nFrom: Alice\nTo: a@x.com\n\nhi" ∧
    emlContentClaimed
      { subject := none, sender_name := some "Alice",
        transport_headers := some (.parses [("From", "Bob <bob@x.com>"), ("To", "a@x.com")]),
        display_to := none, plain_text_body := some (.str "hi"), html_body := none,
        delivery_time := none, creation_time := none } =
      "Subject: No Subject\nFrom: Alice <bob@x.com>\nTo: a@x.com\n\nhi" := by
  decide

/-- The per-item success bit depends only on that item's own outcomes. -/
theorem processItem_fst (fmt : OutFmt) (today : String) (it : RunItem) :
    (processItem fmt today it).1 = itemSucceeds fmt it := by
  unfold processItem itemSucceeds
  cases hc : it.createResult with
  | error e => simp [Except.isOk, Except.toBool]
  | ok fp =>
    by_cases he : wantsEml fmt <;> by_cases hp : wantsPdf fmt <;>
      cases it.emlResult <;> cases it.pdfResult <;>
        simp [he, hp, Except.isOk, Except.toBool]

/-- The export loop processes every item and simply concatenates the items'
individual effects: one item's failure is invisible to the others. -/
theorem processLoop_spec (fmt : OutFmt) (today : String) (items : List RunItem) :
    processLoop fmt today items =
      (items.countP (fun it => itemSucceeds fmt it),
       (items.map (fun it => (processItem fmt today it).2)).flatten) := by
  induction items with
  | nil => rfl
  | cons it rest ih =>
    simp [processLoop, ih, processItem_fst, List.countP_cons]

/-- C8: per-item failure is isolated — with a valid file and the output root
created, `process_emails` returns `True` whatever the per-item and
per-attachment outcomes are, the processed count is the number of items
whose own create/save calls succeed, and the trace is the concatenation of
each item's own effects (so a failing item, reported in place, never stops
the others); the only fatal outcomes are the output-root creation failure,
which propagates as an exception, and the archive load failure, which ends
the run with `False`. -/
theorem C8_per_item_failure_isolated (items : List RunItem) (fmt : OutFmt)
    (today outputRoot : String) (e : PyError) :
    processEmails true (.ok ()) (.ok items) fmt false today outputRoot =
      .ok (true, items.countP (fun it => itemSucceeds fmt it),
        Effect.dirCreated outputRoot ::
          (items.map (fun it => (processItem fmt today it).2)).flatten) ∧
    processEmails true (.error e) (.ok items) fmt false today outputRoot = .error e ∧
    processEmails true (.ok ()) (.error e) fmt false today outputRoot =
      .ok (false, 0, [.dirCreated outputRoot, .printed ("❌ Error: " ++ e.msg)]) := by
  refine ⟨?_, rfl, rfl⟩
  simp [processEmails, processLoop_spec]

/-- The dry-run preview block only prints. -/
theorem dryRunPreviewLines_no_fs (fmt : OutFmt) (today : String) (items : List RunItem) :
    (dryRunPreviewLines fmt today items).all (fun eff => !effectTouchesFs eff) = true := by
  unfold dryRunPreviewLines
  simp only [List.all_eq_true]
  intro eff h
  rw [List.mem_flatten] at h
  obtain ⟨l, hl, he⟩ := h
  rw [List.mem_map] at hl
  obtain ⟨it, _, rfl⟩ := hl
  rcases List.mem_append.mp he with h1 | h1 <;>
    (split_ifs at h1 <;> simp at h1) <;> subst h1 <;> rfl

/-- C9 (amended): in dry-run mode `process_emails` skips the output-root
creation, touches no directory and writes no file, prints a preview line per
requested format for at most the first 10 items — built from the raw subject
(truncated to 50 and stripped) without the invalid-character removal the
real save applies — plus the count of the remaining items when more than 10
were discovered, and returns `True`. -/
theorem C9_dry_run_preview_amended (mkdirRoot : Except PyError Unit)
    (items : List RunItem) (fmt : OutFmt) (today outputRoot : String) :
    processEmails true mkdirRoot (.ok items) fmt true today outputRoot =
      .ok (true, 0,
        Effect.printed "📋 DRY RUN - Files that would be created:" ::
          (dryRunPreviewLines fmt today items ++
            (if 10 < items.length then
              [.printed ("  ... and " ++ Nat.repr (items.length - 10) ++ " more emails")]
            else []))) ∧
    (Effect.printed "📋 DRY RUN - Files that would be created:" ::
        (dryRunPreviewLines fmt today items ++
          (if 10 < items.length then
            [.printed ("  ... and " ++ Nat.repr (items.length - 10) ++ " more emails")]
          else []))).all (fun eff => !effectTouchesFs eff) = true := by
  constructor
  · simp [processEmails]
  · simp only [List.all_cons, List.all_append, Bool.and_eq_true]
    refine ⟨rfl, dryRunPreviewLines_no_fs fmt today items, ?_⟩
    split_ifs <;> simp [effectTouchesFs]

/-- C9 counterexample: for a subject containing a sanitized character, the
dry-run preview line advertises the raw name (`a/b.eml`) while the real save
would write the sanitized one (`ab.eml`), so the preview does not list the
filename that would be produced. -/
theorem C9_preview_name_counterexample :
    previewEmlLine "Inbox" (sampleMessage "a/b") "2024-01-01" =
      "  📧 Inbox/[2024-01-01] - a/b.eml" ∧
    emlFileName (sampleMessage "a/b") "2024-01-01" = "[2024-01-01] - ab.eml" ∧
    previewEmlLine "Inbox" (sampleMessage "a/b") "2024-01-01" ≠
      "  📧 Inbox/" ++ emlFileName (sampleMessage "a/b") "2024-01-01" := by
  refine ⟨by decide, by decide, by decide⟩

end OstPst
